import Mathlib

/-!
Verification of the Resilient Extraction & Update Scheduling Engine
(price tracker backend) against its natural-language specification.

The definitions below are shallow embeddings of the Python source:

* `backend/services/scraper.py`   — extraction strategies, merge logic,
  the price consensus resolver `extract_from_dynamic_price_api`, and the
  public entry point `scrape_product`;
* `backend/services/alerts.py`, `backend/services/database.py` — the
  asynchronous alert evaluator;
* `backend/services/scheduler.py` — the update priority score, the
  per-item retry loop, and the synchronous alert evaluator;
* `backend/api/cron.py`           — the cron update step.

Prices are modelled as rationals, Python dictionaries as structures or
functions with `Option` fields (a missing key is `none`), exceptions as
explicit alternatives, and network/database results as input parameters.
-/

/- ------------------------------------------------------------------ -/
/- Price Consensus Resolver: `extract_from_dynamic_price_api`          -/
/- ------------------------------------------------------------------ -/

/-- Floor of a rational, computed by Euclidean division of numerator by
denominator so that kernel reduction works on concrete inputs. -/
def floorQ (q : ℚ) : ℤ := q.num / (q.den : ℤ)

/-- Python `round` applied to a rational price: nearest integer with
ties going to the even integer (models `rounded_price = round(price)`
in `extract_from_dynamic_price_api`).  Writing `f` for the floor and
`r` for the remainder, the fractional part `r / den` is compared with
`1/2` by comparing `2 * r` with `den`. -/
def pyRound (q : ℚ) : ℤ :=
  if 2 * (q.num - floorQ q * (q.den : ℤ)) < (q.den : ℤ) then floorQ q
  else if (q.den : ℤ) < 2 * (q.num - floorQ q * (q.den : ℤ)) then floorQ q + 1
  else if floorQ q % 2 = 0 then floorQ q else floorQ q + 1

/-- Lower bound of the plausibility window used by every candidate
collection site in `extract_from_dynamic_price_api` and
`extract_prices_from_html` (`100 <= price_value <= 500000`). -/
def PRICE_MIN : ℚ := 100

/-- Upper bound of the plausibility window. -/
def PRICE_MAX : ℚ := 500000

/-- The plausibility check guarding every `collected_prices.append`. -/
def isPlausible (p : ℚ) : Bool :=
  decide (PRICE_MIN ≤ p) && decide (p ≤ PRICE_MAX)

/-- Candidate collection: of the raw (source-tag, price) observations
considered by the API extractor, exactly the plausible ones are
appended to `collected_prices`, in encounter order. -/
def collectPlausible (raw : List (String × ℚ)) : List (String × ℚ) :=
  raw.filter (fun c => isPlausible c.2)

/-- Number of occurrences of a rounded price in the rounded candidate
list (the value of `price_counts[k]` built by the consensus loop). -/
def countOf (l : List ℤ) (k : ℤ) : ℕ := l.count k

/-- Helper for `firstKeys`: keys of the rounded list in first-seen
order, skipping keys already recorded in `seen`. -/
def firstKeysAux (seen : List ℤ) : List ℤ → List ℤ
  | [] => []
  | k :: rest =>
    if k ∈ seen then firstKeysAux seen rest
    else k :: firstKeysAux (k :: seen) rest

/-- Distinct rounded prices in first-seen order: the key order of the
Python dict `price_counts` (insertion order). -/
def firstKeys (l : List ℤ) : List ℤ := firstKeysAux [] l

/-- Head of `sorted(price_counts.items(), key=count, reverse=True)`:
Python sorting is stable, so the result is the leftmost key whose count
is maximal. -/
def pickMax (l : List ℤ) : List ℤ → ℤ
  | [] => 0
  | [k] => k
  | k :: k2 :: rest =>
    if countOf l (pickMax l (k2 :: rest)) ≤ countOf l k then k
    else pickMax l (k2 :: rest)

/-- `most_common_price`: modal rounded price, frequency ties broken by
first insertion into `price_counts`. -/
def modalPrice (rounded : List ℤ) : ℤ := pickMax rounded (firstKeys rounded)

/-- Final consensus analysis of `extract_from_dynamic_price_api` on the
already-collected plausible candidates: empty list resolves to `None`;
a single candidate is returned as is; two or more candidates are
rounded and the modal rounded value is returned. -/
def consensusFromCollected (collected : List (String × ℚ)) : Option ℚ :=
  match collected with
  | [] => none
  | [c] => some c.2
  | c1 :: c2 :: rest =>
    some ((modalPrice ((c1 :: c2 :: rest).map (fun c => pyRound c.2)) : ℤ) : ℚ)

/-- The Price Consensus Resolver: plausibility filtering at collection
time followed by the consensus analysis. -/
def extract_from_dynamic_price_api (raw : List (String × ℚ)) : Option ℚ :=
  consensusFromCollected (collectPlausible raw)

/- ------------------------------------------------------------------ -/
/- Arithmetic facts about `floorQ` and `pyRound`                       -/
/- ------------------------------------------------------------------ -/

lemma den_posQ (q : ℚ) : (0 : ℚ) < (q.den : ℚ) := by
  exact_mod_cast q.den_pos

lemma num_eq_mul (q : ℚ) : (q.num : ℚ) = q * (q.den : ℚ) :=
  (div_eq_iff (ne_of_gt (den_posQ q))).mp (Rat.num_div_den q)

lemma rem_eq_emod (q : ℚ) :
    q.num - floorQ q * (q.den : ℤ) = q.num % (q.den : ℤ) := by
  rw [Int.emod_def, floorQ]; ring

lemma rem_nonneg (q : ℚ) : 0 ≤ q.num - floorQ q * (q.den : ℤ) := by
  rw [rem_eq_emod]
  exact Int.emod_nonneg _ (by exact_mod_cast q.den_nz)

lemma rem_lt_den (q : ℚ) : q.num - floorQ q * (q.den : ℤ) < (q.den : ℤ) := by
  rw [rem_eq_emod]
  exact Int.emod_lt_of_pos _ (by exact_mod_cast q.den_pos)

lemma floorQ_le (q : ℚ) : (floorQ q : ℚ) ≤ q := by
  have h : ((0 : ℤ) : ℚ) ≤ ((q.num - floorQ q * (q.den : ℤ) : ℤ) : ℚ) := by
    exact_mod_cast rem_nonneg q
  push_cast at h
  rw [num_eq_mul] at h
  nlinarith [den_posQ q]

lemma lt_floorQ_add_one (q : ℚ) : q < (floorQ q : ℚ) + 1 := by
  have h : ((q.num - floorQ q * (q.den : ℤ) : ℤ) : ℚ) < ((q.den : ℤ) : ℚ) := by
    exact_mod_cast rem_lt_den q
  push_cast at h
  rw [num_eq_mul] at h
  nlinarith [den_posQ q]

lemma pyRound_cases (q : ℚ) : pyRound q = floorQ q ∨ pyRound q = floorQ q + 1 := by
  unfold pyRound
  split_ifs <;> simp

/-- A plausible price stays inside the plausibility window after
rounding to the minor unit. -/
lemma pyRound_plausible {q : ℚ} (h : isPlausible q = true) :
    isPlausible ((pyRound q : ℤ) : ℚ) = true := by
  rw [isPlausible, Bool.and_eq_true, decide_eq_true_eq, decide_eq_true_eq] at h
  obtain ⟨hlo, hhi⟩ := h
  rw [PRICE_MIN] at hlo
  rw [PRICE_MAX] at hhi
  have hfl : (100 : ℤ) ≤ floorQ q := by
    by_contra hph
    push_neg at hph
    have h1 : q < (floorQ q : ℚ) + 1 := lt_floorQ_add_one q
    have h2 : ((floorQ q + 1 : ℤ) : ℚ) ≤ ((100 : ℤ) : ℚ) := by
      exact_mod_cast Int.add_one_le_iff.mpr hph
    push_cast at h2
    linarith
  have hfup : floorQ q ≤ 500000 := by
    have h1 : (floorQ q : ℚ) ≤ 500000 := le_trans (floorQ_le q) hhi
    exact_mod_cast h1
  have key : (q.den : ℤ) ≤ 2 * (q.num - floorQ q * (q.den : ℤ)) →
      floorQ q + 1 ≤ 500000 := by
    intro hd
    have hdQ : ((q.den : ℤ) : ℚ) ≤
        ((2 * (q.num - floorQ q * (q.den : ℤ)) : ℤ) : ℚ) := by exact_mod_cast hd
    push_cast at hdQ
    rw [num_eq_mul] at hdQ
    have hden := den_posQ q
    have h12 : (floorQ q : ℚ) + 1/2 ≤ q := by nlinarith
    have h13 : (floorQ q : ℚ) < 500000 := by linarith
    have h14 : floorQ q < 500000 := by exact_mod_cast h13
    omega
  have hlow : (100 : ℤ) ≤ pyRound q := by
    rcases pyRound_cases q with hc | hc <;> omega
  have hhigh : pyRound q ≤ 500000 := by
    rw [pyRound]
    split_ifs with h1 h2 h3
    · exact hfup
    · exact key (by omega)
    · exact hfup
    · exact key (by omega)
  rw [isPlausible, Bool.and_eq_true, decide_eq_true_eq, decide_eq_true_eq,
    PRICE_MIN, PRICE_MAX]
  constructor
  · exact_mod_cast hlow
  · exact_mod_cast hhigh

/- ------------------------------------------------------------------ -/
/- Structure of the modal choice                                       -/
/- ------------------------------------------------------------------ -/

lemma firstKeysAux_subset :
    ∀ (l seen : List ℤ) (x : ℤ), x ∈ firstKeysAux seen l → x ∈ l := by
  intro l
  induction l with
  | nil => intro seen x hx; simp [firstKeysAux] at hx
  | cons k rest ih =>
    intro seen x hx
    rw [firstKeysAux] at hx
    by_cases hk : k ∈ seen
    · rw [if_pos hk] at hx
      exact List.mem_cons_of_mem _ (ih seen x hx)
    · rw [if_neg hk] at hx
      rcases List.mem_cons.mp hx with rfl | hx
      · exact List.mem_cons_self _ _
      · exact List.mem_cons_of_mem _ (ih (k :: seen) x hx)

lemma mem_firstKeysAux :
    ∀ (l seen : List ℤ) (x : ℤ), x ∈ l → x ∉ seen → x ∈ firstKeysAux seen l := by
  intro l
  induction l with
  | nil => intro seen x hx _; simp at hx
  | cons k rest ih =>
    intro seen x hx hs
    rw [firstKeysAux]
    by_cases hk : k ∈ seen
    · rw [if_pos hk]
      rcases List.mem_cons.mp hx with rfl | hx
      · exact absurd hk hs
      · exact ih seen x hx hs
    · rw [if_neg hk]
      rcases List.mem_cons.mp hx with rfl | hx
      · exact List.mem_cons_self _ _
      · by_cases hxk : x = k
        · subst hxk; exact List.mem_cons_self _ _
        · refine List.mem_cons_of_mem _ (ih (k :: seen) x hx ?_)
          intro hmem
          rcases List.mem_cons.mp hmem with h | h
          · exact hxk h
          · exact hs h

lemma firstKeys_subset (l : List ℤ) (x : ℤ) (hx : x ∈ firstKeys l) : x ∈ l :=
  firstKeysAux_subset l [] x hx

lemma mem_firstKeys (l : List ℤ) (x : ℤ) (hx : x ∈ l) : x ∈ firstKeys l :=
  mem_firstKeysAux l [] x hx (by simp)

lemma firstKeys_ne_nil {l : List ℤ} (h : l ≠ []) : firstKeys l ≠ [] := by
  match l, h with
  | k :: rest, _ =>
    intro hcon
    exact absurd (mem_firstKeys (k :: rest) k (List.mem_cons_self _ _))
      (by rw [hcon]; simp)

/-- The pick of the stable descending sort: the chosen key splits the
key list so that every earlier key has strictly smaller count and every
later key has no larger count. -/
lemma pickMax_spec (l : List ℤ) :
    ∀ ks, ks ≠ [] →
      ∃ pre post, ks = pre ++ pickMax l ks :: post ∧
        (∀ k ∈ pre, countOf l k < countOf l (pickMax l ks)) ∧
        (∀ k ∈ post, countOf l k ≤ countOf l (pickMax l ks)) := by
  intro ks
  match ks with
  | [] => intro h; exact absurd rfl h
  | [k] =>
    intro _
    exact ⟨[], [], by simp [pickMax], by simp, by simp⟩
  | k :: k2 :: rest =>
    intro _
    obtain ⟨pre, post, heq, hpre, hpost⟩ := pickMax_spec l (k2 :: rest) (by simp)
    by_cases hc : countOf l (pickMax l (k2 :: rest)) ≤ countOf l k
    · have hpick : pickMax l (k :: k2 :: rest) = k := by
        rw [pickMax, if_pos hc]
      refine ⟨[], k2 :: rest, by simp [hpick], by simp, ?_⟩
      intro j hj
      rw [hpick]
      rw [heq] at hj
      rcases List.mem_append.mp hj with hj | hj
      · exact le_of_lt (lt_of_lt_of_le (hpre j hj) hc)
      · rcases List.mem_cons.mp hj with rfl | hj
        · exact hc
        · exact le_trans (hpost j hj) hc
    · have hpick : pickMax l (k :: k2 :: rest) = pickMax l (k2 :: rest) := by
        rw [pickMax, if_neg hc]
      push_neg at hc
      refine ⟨k :: pre, post, ?_, ?_, ?_⟩
      · rw [hpick, List.cons_append]
        exact congrArg (List.cons k) heq
      · intro j hj
        rw [hpick]
        rcases List.mem_cons.mp hj with rfl | hj
        · exact hc
        · exact hpre j hj
      · intro j hj
        rw [hpick]
        exact hpost j hj

lemma pickMax_mem (l : List ℤ) (ks : List ℤ) (h : ks ≠ []) :
    pickMax l ks ∈ ks := by
  obtain ⟨pre, post, heq, -, -⟩ := pickMax_spec l ks h
  have hmem : pickMax l ks ∈ pre ++ pickMax l ks :: post :=
    List.mem_append.mpr (Or.inr (List.mem_cons_self _ _))
  rw [← heq] at hmem
  exact hmem

lemma modalPrice_mem {rounded : List ℤ} (h : rounded ≠ []) :
    modalPrice rounded ∈ rounded :=
  firstKeys_subset rounded _
    (pickMax_mem rounded (firstKeys rounded) (firstKeys_ne_nil h))

/-- Rounded candidate list fed to the count dictionary. -/
def roundedOf (l : List (String × ℚ)) : List ℤ := l.map (fun c => pyRound c.2)

/-- Claim C2: for every list of collected price candidates, if at least
one candidate lies inside the plausibility window the Price Consensus
Resolver returns a non-null price that itself lies inside the window;
if the candidate list is empty or every candidate is implausible it
returns null — it never returns a value outside the window. -/
theorem C2_consensus_window (raw : List (String × ℚ)) :
    ((∃ c ∈ raw, isPlausible c.2 = true) →
      ∃ p, extract_from_dynamic_price_api raw = some p ∧ isPlausible p = true) ∧
    ((∀ c ∈ raw, isPlausible c.2 = false) →
      extract_from_dynamic_price_api raw = none) := by
  constructor
  · rintro ⟨c, hc, hpl⟩
    have hne : collectPlausible raw ≠ [] := by
      intro hnil
      have hmem : c ∈ collectPlausible raw := List.mem_filter.mpr ⟨hc, hpl⟩
      rw [hnil] at hmem
      simp at hmem
    rw [extract_from_dynamic_price_api]
    rcases hcl : collectPlausible raw with - | ⟨c1, cl2⟩
    · exact absurd hcl hne
    rcases cl2 with - | ⟨c2, rest⟩
    · refine ⟨c1.2, rfl, ?_⟩
      have hmem : c1 ∈ collectPlausible raw := by rw [hcl]; simp
      exact (List.mem_filter.mp hmem).2
    · have hrne : (c1 :: c2 :: rest).map (fun c => pyRound c.2) ≠ [] := by simp
      obtain ⟨c0, hc0, hpr⟩ := List.mem_map.mp (modalPrice_mem hrne)
      have hc0p : isPlausible c0.2 = true := by
        have hmem : c0 ∈ collectPlausible raw := by rw [hcl]; exact hc0
        exact (List.mem_filter.mp hmem).2
      refine ⟨_, rfl, ?_⟩
      rw [← hpr]
      exact pyRound_plausible hc0p
  · intro hall
    have hnil : collectPlausible raw = [] := by
      rw [collectPlausible]
      apply List.filter_eq_nil_iff.mpr
      intro a ha
      simp [hall a ha]
    rw [extract_from_dynamic_price_api, hnil]
    rfl

/-- Witness for claim C2: one plausible candidate among two yields a
plausible consensus price; an all-implausible list yields null. -/
theorem C2_consensus_window_witness :
    ((∃ c ∈ [("json_direct_field", (999 : ℚ)), ("text_node", 3)],
        isPlausible c.2 = true) ∧
      ∃ p, extract_from_dynamic_price_api
          [("json_direct_field", (999 : ℚ)), ("text_node", 3)] = some p ∧
        isPlausible p = true) ∧
    ((∀ c ∈ [("text_node", (3 : ℚ))], isPlausible c.2 = false) ∧
      extract_from_dynamic_price_api [("text_node", (3 : ℚ))] = none) :=
  ⟨⟨by decide, (C2_consensus_window _).1 (by decide)⟩,
   ⟨by decide, (C2_consensus_window _).2 (by decide)⟩⟩

/-- Claim C3 counterexample: the resolver returns different prices for
the same two plausible candidates presented in the two possible orders,
even though the claimed rule — modal value with frequency ties broken
by highest-priority source tag — depends only on the multiset of tagged
candidates and not on their order.  The tie here is broken by insertion
order, so the lower-trust `text_node` reading can win over the
`json_direct_field` reading. -/
theorem C3_tie_break_counterexample :
    ([("text_node", (1050 : ℚ)), ("json_direct_field", 999)]).Perm
      [("json_direct_field", (999 : ℚ)), ("text_node", 1050)] ∧
    extract_from_dynamic_price_api
      [("text_node", (1050 : ℚ)), ("json_direct_field", 999)] = some 1050 ∧
    extract_from_dynamic_price_api
      [("json_direct_field", (999 : ℚ)), ("text_node", 1050)] = some 999 :=
  ⟨List.Perm.swap _ _ _, by decide, by decide⟩

/-- Claim C3 (amended): with exactly one plausible candidate the
resolver returns that candidate; with two or more it rounds each
candidate and returns the modal rounded value, breaking frequency ties
by earliest first occurrence in collection order (every key listed
before the chosen one has a strictly smaller count, every later key has
no larger count) — not by source-tag priority.  For the three
candidates {999, 999, 1050} it returns 999. -/
theorem C3_modal_first_seen (raw : List (String × ℚ)) :
    (∀ c, collectPlausible raw = [c] →
      extract_from_dynamic_price_api raw = some c.2) ∧
    (∀ c1 c2 rest, collectPlausible raw = c1 :: c2 :: rest →
      ∃ pre post,
        extract_from_dynamic_price_api raw =
          some ((modalPrice (roundedOf (collectPlausible raw)) : ℤ) : ℚ) ∧
        firstKeys (roundedOf (collectPlausible raw)) =
          pre ++ modalPrice (roundedOf (collectPlausible raw)) :: post ∧
        (∀ k ∈ pre, countOf (roundedOf (collectPlausible raw)) k <
          countOf (roundedOf (collectPlausible raw))
            (modalPrice (roundedOf (collectPlausible raw)))) ∧
        (∀ k ∈ post, countOf (roundedOf (collectPlausible raw)) k ≤
          countOf (roundedOf (collectPlausible raw))
            (modalPrice (roundedOf (collectPlausible raw)))) ∧
        (∀ x ∈ roundedOf (collectPlausible raw),
          x ∈ firstKeys (roundedOf (collectPlausible raw)))) ∧
    extract_from_dynamic_price_api
      [("offer_a", (999 : ℚ)), ("offer_b", 999), ("offer_c", 1050)] =
        some 999 := by
  refine ⟨?_, ?_, by decide⟩
  · intro c hcl
    rw [extract_from_dynamic_price_api, hcl]
    rfl
  · intro c1 c2 rest hcl
    have hLne : roundedOf (collectPlausible raw) ≠ [] := by
      rw [hcl]; simp [roundedOf]
    obtain ⟨pre, post, heq, hpre, hpost⟩ :=
      pickMax_spec (roundedOf (collectPlausible raw))
        (firstKeys (roundedOf (collectPlausible raw))) (firstKeys_ne_nil hLne)
    refine ⟨pre, post, ?_, heq, hpre, hpost,
      fun x hx => mem_firstKeys _ _ hx⟩
    rw [extract_from_dynamic_price_api, hcl]
    rfl

/-- Witness for the amended claim C3: a concrete list whose plausible
part is a single candidate resolves to that candidate. -/
theorem C3_modal_first_seen_witness :
    collectPlausible [("json_direct_field", (999 : ℚ)), ("text_node", 3)] =
      [("json_direct_field", (999 : ℚ))] ∧
    extract_from_dynamic_price_api
      [("json_direct_field", (999 : ℚ)), ("text_node", 3)] = some 999 :=
  ⟨by decide, (C3_modal_first_seen _).1 ("json_direct_field", (999 : ℚ)) (by decide)⟩

/- ------------------------------------------------------------------ -/
/- Extraction records and the per-document merge of                    -/
/- `scrape_amazon_product`                                             -/
/- ------------------------------------------------------------------ -/

/-- Product fields handled by the extraction strategies. -/
inductive Fld
  | name | price | currency | image_url | description | brand
deriving DecidableEq, Repr

/-- A value stored in the aggregation dict: a number or a string. -/
inductive FieldVal
  | num (q : ℚ)
  | str (s : String)
deriving DecidableEq, Repr

/-- Python truthiness of a stored value. -/
def FieldVal.truthy : FieldVal → Bool
  | .num q => decide (q ≠ 0)
  | .str s => decide (s ≠ "")

/-- A partial extraction record: a dict from field to value, with a
missing key modelled as `none`. -/
def Record := Fld → Option FieldVal

def emptyRecord : Record := fun _ => none

def Record.set (r : Record) (f : Fld) (v : FieldVal) : Record :=
  fun g => if g = f then some v else r g

/-- Truthiness of a dict lookup (`key in d and d[key]`). -/
def truthyOpt : Option FieldVal → Bool
  | some v => v.truthy
  | none => false

/-- `for key, value in new.items(): if key not in acc or not acc[key]:
acc[key] = value` — the merge used for the HTML-element and meta-tag
strategies. -/
def mergeKeep (acc new : Record) : Record := fun f =>
  match new f with
  | none => acc f
  | some w =>
    match acc f with
    | none => some w
    | some v => if v.truthy then some v else some w

/-- `acc.update(new)` — plain dict update, overwriting on key clash. -/
def mergeOverwrite (acc new : Record) : Record := fun f =>
  match new f with
  | none => acc f
  | some w => some w

/-- Method 1 of `scrape_amazon_product`: the JSON-LD record is merged
with `update` only when it contains a name key. -/
def mergeJsonLd (acc new : Record) : Record :=
  if (new Fld.name).isSome then mergeOverwrite acc new else acc

/-- `'name' in aggregated_data and 'price' in aggregated_data` — the
early-stop test of the aggregator. -/
def recordComplete (r : Record) : Bool :=
  (r Fld.name).isSome && (r Fld.price).isSome

/-- Per-document extraction signals of one fetch attempt, in the order
the strategies run: JSON-LD block, HTML element selectors, meta tags,
the dynamic price API (price only), and the page title (after Amazon
suffix stripping) with the free-text price scan result. -/
structure DocExtracts where
  jsonLd : Record
  htmlElems : Record
  metaTags : Record
  hasProductId : Bool
  dynApiPrice : Option ℚ
  titleText : Option String
  textScanPrice : Option (ℚ × String)

/-- Method 5: `if product_id and ('price' not in agg or not
agg['price']):` query the dynamic price API; a truthy result sets both
the price and, unconditionally, the currency. -/
def dynApiStage (d : DocExtracts) (a : Record) : Record :=
  if d.hasProductId && !truthyOpt (a Fld.price) then
    match d.dynApiPrice with
    | some p =>
      if p ≠ 0 then
        (a.set Fld.price (.num p)).set Fld.currency (.str "INR")
      else a
    | none => a
  else a

/-- Title fallback for the name: only when the name key is absent or
falsy. -/
def titleNameStep (t : String) (a : Record) : Record :=
  if truthyOpt (a Fld.name) then a else a.set Fld.name (.str t)

/-- Title fallback for the description: only when the key is absent. -/
def titleDescStep (t : String) (a : Record) : Record :=
  if (a Fld.description).isSome then a else a.set Fld.description (.str t)

/-- Free-text price scan: only when the price key is absent; a
successful scan sets the price and overwrites the currency. -/
def titlePriceStep (d : DocExtracts) (a : Record) : Record :=
  match a Fld.price with
  | some _ => a
  | none =>
    match d.textScanPrice with
    | some pc => (a.set Fld.price (.num pc.1)).set Fld.currency (.str pc.2)
    | none => a

/-- Method 4 (run last): page-title fallback for name and description
plus the free-text price scan, guarded by a non-trivial title text. -/
def titleStage (d : DocExtracts) (a : Record) : Record :=
  match d.titleText with
  | none => a
  | some t =>
    if 5 < t.length then titlePriceStep d (titleDescStep t (titleNameStep t a))
    else a

/-- Strategies 5 (dynamic API) then free text, with no early stop. -/
def stagesAfter3 (d : DocExtracts) (a : Record) : Record :=
  titleStage d (dynApiStage d a)

/-- Meta-tag merge followed by the rest; the early stop before it fires
when name and price are already present. -/
def stagesAfter2 (d : DocExtracts) (a : Record) : Record :=
  if recordComplete a then a else stagesAfter3 d (mergeKeep a d.metaTags)

/-- HTML-element merge followed by the rest; the early stop before it
fires when name and price are already present after JSON-LD. -/
def stagesAfter1 (d : DocExtracts) (a : Record) : Record :=
  if recordComplete a then a else stagesAfter2 d (mergeKeep a d.htmlElems)

/-- One full aggregation pass over one document, starting from the
running record carried over from earlier attempts. -/
def aggregateDoc (init : Record) (d : DocExtracts) : Record :=
  stagesAfter1 d (mergeJsonLd init d.jsonLd)

/- ------------------------------------------------------------------ -/
/- `scrape_amazon_product` and `scrape_product`                        -/
/- ------------------------------------------------------------------ -/

/-- Result dictionary of `scrape_product` / `scrape_amazon_product`,
restricted to the keys the claims are about.  A missing key and an
explicit `None` value both read back as `none`. -/
structure ProductDict where
  name : Option String := none
  price : Option ℚ := none
  currency : Option String := none
  image_url : Option String := none
  description : Option String := none
  scraping_failed : Bool := false
  error : Option String := none
  is_mock_data : Bool := false
  is_real_data : Bool := false
  partial_data : Bool := false
deriving DecidableEq, Repr

def strOf : Option FieldVal → Option String
  | some (.str s) => some s
  | some (.num _) => none
  | none => none

def numOf : Option FieldVal → Option ℚ
  | some (.num q) => some q
  | some (.str _) => none
  | none => none

/-- View of an aggregation record as a returned dictionary. -/
def recordDict (a : Record) : ProductDict :=
  { name := strOf (a Fld.name), price := numOf (a Fld.price),
    currency := strOf (a Fld.currency),
    image_url := strOf (a Fld.image_url),
    description := strOf (a Fld.description) }

/-- og:image last-resort fill used during finalisation. -/
def imageFillStep (ogImage : Option String) (a : Record) : Record :=
  if truthyOpt (a Fld.image_url) then a
  else
    match ogImage with
    | some u => a.set Fld.image_url (.str u)
    | none => a

/-- Finalisation once a name is present (lines 353-396): og:image
last-resort fill, and when the price key is absent it is set to the
explicit null together with the default currency. -/
def finalizeRecord (ogImage : Option String) (a : Record) : Record :=
  if (imageFillStep ogImage a Fld.price).isSome then imageFillStep ogImage a
  else (imageFillStep ogImage a).set Fld.currency (.str "INR")

/-- One fetch attempt of the Amazon scraper: either blocked (captcha,
robot page or request exception — no extraction runs) or a parsed
document with its extraction signals and its og:image tag. -/
structure AmazonAttempt where
  blocked : Bool
  doc : DocExtracts
  ogImage : Option String

/-- Inputs of one `scrape_amazon_product` call: the per-attempt parsed
documents (the code uses at most 5) and the combined result of the
mobile-site / API / direct-URL fallback block, when one of those
produced a product name (`none` when `product_id` is absent or all
fallbacks failed). -/
structure AmazonInput where
  attempts : List AmazonAttempt
  fallbackResult : Option (String × Option ℚ)

/-- Return dictionary of the mobile/API/direct fallbacks: real name and
optional real price, plus a generated description placeholder. -/
def fallbackDict (n : String) (p : Option ℚ) : ProductDict :=
  { name := some n, description := some ("Product details for " ++ n),
    price := p, currency := if p.isSome then some "INR" else none }

/-- Terminal failure dictionary of `scrape_amazon_product`. -/
def amazonFailDict : ProductDict :=
  { scraping_failed := true,
    error := some
      "Unable to extract product name from Amazon. Their anti-bot measures might be active.",
    is_real_data := false }

/-- Partial-data return used when the attempt loop ends with a name
collected but some attempt never completed. -/
def partialDict (a : Record) : ProductDict :=
  { recordDict a with partial_data := true }

/-- One attempt of the Amazon scraping loop: a blocked attempt leaves
the running record unchanged; otherwise the strategies merge into it
with early returns when name and price are complete after strategy 1
or 2; strategy 3 (meta tags) merges with no early return, then the
dynamic-API and title stages run; a record with a name is finalised
and returned; otherwise the enriched running record is carried to the
next attempt. -/
def runAttempt (att : AmazonAttempt) (running : Record) :
    ProductDict ⊕ Record :=
  if att.blocked then Sum.inr running
  else if recordComplete (mergeJsonLd running att.doc.jsonLd) then
    Sum.inl (recordDict (mergeJsonLd running att.doc.jsonLd))
  else if recordComplete
      (mergeKeep (mergeJsonLd running att.doc.jsonLd) att.doc.htmlElems) then
    Sum.inl (recordDict
      (mergeKeep (mergeJsonLd running att.doc.jsonLd) att.doc.htmlElems))
  else if (stagesAfter3 att.doc
      (mergeKeep
        (mergeKeep (mergeJsonLd running att.doc.jsonLd) att.doc.htmlElems)
        att.doc.metaTags)
        Fld.name).isSome then
    Sum.inl (recordDict (finalizeRecord att.ogImage
      (stagesAfter3 att.doc
        (mergeKeep
          (mergeKeep (mergeJsonLd running att.doc.jsonLd) att.doc.htmlElems)
          att.doc.metaTags))))
  else Sum.inr (stagesAfter3 att.doc
    (mergeKeep
      (mergeKeep (mergeJsonLd running att.doc.jsonLd) att.doc.htmlElems)
      att.doc.metaTags))

/-- The attempt loop of `scrape_amazon_product`: the running record
persists across attempts.  After the loop: partial data if a name was
ever found, else the fallback block, else the terminal failure. -/
def amazonLoop (fb : Option (String × Option ℚ)) :
    Record → List AmazonAttempt → ProductDict
  | running, [] =>
    if (running Fld.name).isSome then partialDict running
    else
      match fb with
      | some np => fallbackDict np.1 np.2
      | none => amazonFailDict
  | running, att :: rest =>
    match runAttempt att running with
    | Sum.inl dict => dict
    | Sum.inr a => amazonLoop fb a rest

/-- `scrape_amazon_product`: at most 5 attempts. -/
def scrape_amazon_product (inp : AmazonInput) : ProductDict :=
  amazonLoop inp.fallbackResult emptyRecord (inp.attempts.take 5)

/- ------------------------------------------------------------------ -/
/- Environment gating and the public entry point                       -/
/- ------------------------------------------------------------------ -/

/-- Process environment as read by `is_development_mode` and
`should_use_mock_data`: Flask app availability, the two FLASK_ENV
readings, the TESTING flag and ALLOW_MOCK_DATA. -/
structure Env where
  appAvailable : Bool
  flaskEnvDev : Bool
  osEnvDev : Bool
  testing : Bool
  allowMocks : Bool

/-- `is_development_mode`: inside an app context, development mode when
either FLASK_ENV reading is development or TESTING is set; outside an
app context, only the OS environment variable counts. -/
def is_development_mode (e : Env) : Bool :=
  if e.appAvailable then e.flaskEnvDev || e.osEnvDev || e.testing
  else e.osEnvDev

/-- `should_use_mock_data`: mock data only when explicitly enabled and
in development mode; in production never. -/
def should_use_mock_data (e : Env) : Bool :=
  is_development_mode e && e.allowMocks

/-- Values invented by `get_mock_product_data` (its generated name,
price and description). -/
structure MockData where
  name : String
  price : ℚ
  description : String

/-- Mock dictionary returned by `get_mock_product_data`, always flagged
`is_mock_data`. -/
def mockDict (m : MockData) : ProductDict :=
  { name := some m.name, price := some m.price, currency := some "INR",
    image_url := some "https://via.placeholder.com/500",
    description := some m.description, is_mock_data := true }

/-- Inputs of one `scrape_product` call: the parsed URL domain, an
exception raised inside the try body (if any), and the inputs of the
up-to-three `scrape_amazon_product` calls. -/
structure ScrapeInput where
  isAmazonDomain : Bool
  domain : String
  exn : Option String
  amazonCalls : List AmazonInput

/-- `result and 'name' in result and result['name']`. -/
def nameTruthy (d : ProductDict) : Bool :=
  match d.name with
  | some s => decide (s ≠ "")
  | none => false

/-- The three-attempt loop of `scrape_product` over fresh
`scrape_amazon_product` calls; the first result with a truthy name and
no failure flag is returned with `is_real_data` set. -/
def scrape_productLoop (e : Env) (m : MockData) :
    List AmazonInput → ProductDict
  | [] =>
    if is_development_mode e && should_use_mock_data e then
      { mockDict m with scraping_failed := true }
    else
      { scraping_failed := true,
        error := some "Failed to extract product data after multiple attempts",
        is_real_data := false }
  | c :: rest =>
    let r := scrape_amazon_product c
    if nameTruthy r && !r.scraping_failed then { r with is_real_data := true }
    else scrape_productLoop e m rest

/-- `scrape_product`: the public entry point.  The whole body runs
under one try; a raised exception is mapped to the error dictionary (or
in development with mocks enabled, to mock data). -/
def scrape_product (e : Env) (m : MockData) (inp : ScrapeInput) : ProductDict :=
  match inp.exn with
  | some msg =>
    if is_development_mode e && should_use_mock_data e then
      { mockDict m with scraping_failed := true, error := some msg }
    else { scraping_failed := true, error := some msg, is_real_data := false }
  | none =>
    if inp.isAmazonDomain then scrape_productLoop e m (inp.amazonCalls.take 3)
    else if is_development_mode e && should_use_mock_data e then mockDict m
    else
      { scraping_failed := true,
        error := some ("Unsupported domain: " ++ inp.domain),
        is_real_data := false }


/- ------------------------------------------------------------------ -/
/- Claim C4: lower-priority strategies never overwrite (except the     -/
/- currency slip)                                                      -/
/- ------------------------------------------------------------------ -/

lemma Record.set_ne (a : Record) (f g : Fld) (v : FieldVal) (h : g ≠ f) :
    (a.set f v) g = a g := by
  simp [Record.set, h]

lemma mergeKeep_preserve {a : Record} {f : Fld} {v : FieldVal}
    (hv : v.truthy = true) (h : a f = some v) (new : Record) :
    mergeKeep a new f = some v := by
  cases hn : new f <;> simp [mergeKeep, hn, h, hv]

lemma dynApiStage_preserve {a : Record} {f : Fld} {v : FieldVal}
    (hv : v.truthy = true) (h : a f = some v) (hf : f ≠ Fld.currency)
    (d : DocExtracts) : dynApiStage d a f = some v := by
  by_cases hfp : f = Fld.price
  · subst hfp
    simp [dynApiStage, truthyOpt, h, hv]
  · unfold dynApiStage
    split_ifs with hcond
    · cases hdp : d.dynApiPrice with
      | none => exact h
      | some p =>
        simp only []
        split_ifs with hp0
        · rw [Record.set_ne _ _ _ _ hf, Record.set_ne _ _ _ _ hfp]
          exact h
        · exact h
    · exact h

lemma titleNameStep_preserve {a : Record} {f : Fld} {v : FieldVal}
    (hv : v.truthy = true) (h : a f = some v) (t : String) :
    titleNameStep t a f = some v := by
  by_cases hfn : f = Fld.name
  · subst hfn
    simp [titleNameStep, truthyOpt, h, hv]
  · unfold titleNameStep
    split_ifs with hc
    · exact h
    · rw [Record.set_ne _ _ _ _ hfn]
      exact h

lemma titleDescStep_preserve {a : Record} {f : Fld} {v : FieldVal}
    (h : a f = some v) (t : String) :
    titleDescStep t a f = some v := by
  by_cases hfd : f = Fld.description
  · subst hfd
    simp [titleDescStep, h]
  · unfold titleDescStep
    split_ifs with hc
    · exact h
    · rw [Record.set_ne _ _ _ _ hfd]
      exact h

lemma titlePriceStep_preserve {a : Record} {f : Fld} {v : FieldVal}
    (h : a f = some v) (hf : f ≠ Fld.currency) (d : DocExtracts) :
    titlePriceStep d a f = some v := by
  by_cases hfp : f = Fld.price
  · subst hfp
    simp [titlePriceStep, h]
  · unfold titlePriceStep
    cases hp : a Fld.price with
    | some w => exact h
    | none =>
      cases hts : d.textScanPrice with
      | none => exact h
      | some pc =>
        simp only []
        rw [Record.set_ne _ _ _ _ hf, Record.set_ne _ _ _ _ hfp]
        exact h

lemma titleStage_preserve {a : Record} {f : Fld} {v : FieldVal}
    (hv : v.truthy = true) (h : a f = some v) (hf : f ≠ Fld.currency)
    (d : DocExtracts) : titleStage d a f = some v := by
  unfold titleStage
  cases ht : d.titleText with
  | none => exact h
  | some t =>
    simp only []
    split_ifs with hlen
    · exact titlePriceStep_preserve
        (titleDescStep_preserve (titleNameStep_preserve hv h t) t) hf d
    · exact h

lemma stagesAfter3_preserve {a : Record} {f : Fld} {v : FieldVal}
    (hv : v.truthy = true) (h : a f = some v) (hf : f ≠ Fld.currency)
    (d : DocExtracts) : stagesAfter3 d a f = some v :=
  titleStage_preserve hv (dynApiStage_preserve hv h hf d) hf d

lemma stagesAfter2_preserve {a : Record} {f : Fld} {v : FieldVal}
    (hv : v.truthy = true) (h : a f = some v) (hf : f ≠ Fld.currency)
    (d : DocExtracts) : stagesAfter2 d a f = some v := by
  unfold stagesAfter2
  split_ifs with hc
  · exact h
  · exact stagesAfter3_preserve hv (mergeKeep_preserve hv h _) hf d

lemma stagesAfter1_preserve {a : Record} {f : Fld} {v : FieldVal}
    (hv : v.truthy = true) (h : a f = some v) (hf : f ≠ Fld.currency)
    (d : DocExtracts) : stagesAfter1 d a f = some v := by
  unfold stagesAfter1
  split_ifs with hc
  · exact h
  · exact stagesAfter2_preserve hv (mergeKeep_preserve hv h _) hf d

/-- Claim C4 (amended): during the extraction merging of one document,
for every field other than the currency, a field already present with
a truthy value in the running merged record is never changed by any
later, lower-priority extraction strategy — stated for the pipeline
tail after each of the strategies 1 (JSON-LD), 2 (HTML elements),
3 (meta tags) and 4/5 (dynamic price API and free text).  The currency
field is excluded: the auxiliary-endpoint and free-text strategies
overwrite it when they backfill a missing price. -/
theorem C4_merge_no_overwrite (d : DocExtracts) (f : Fld) (v : FieldVal)
    (hv : v.truthy = true) (hf : f ≠ Fld.currency) :
    (∀ a : Record, a f = some v → stagesAfter1 d a f = some v) ∧
    (∀ a : Record, a f = some v → stagesAfter2 d a f = some v) ∧
    (∀ a : Record, a f = some v → stagesAfter3 d a f = some v) ∧
    (∀ a : Record, a f = some v → titleStage d a f = some v) :=
  ⟨fun _ h => stagesAfter1_preserve hv h hf d,
   fun _ h => stagesAfter2_preserve hv h hf d,
   fun _ h => stagesAfter3_preserve hv h hf d,
   fun _ h => titleStage_preserve hv h hf d⟩

/-- JSON-LD record of the C4 counterexample: a product name together
with a currency but no parseable price (as produced by
`extract_product_from_json_ld` when `offers.price` fails to parse while
`offers.priceCurrency` is present). -/
def cexJsonLdC4 : Record := fun f =>
  match f with
  | Fld.name => some (.str "Widget Gadget")
  | Fld.currency => some (.str "EUR")
  | _ => none

/-- Document of the C4 counterexample: JSON-LD yields name and currency
only; the later strategies find nothing except the dynamic price API,
which backfills the missing price. -/
def cexDocC4 : DocExtracts :=
  { jsonLd := cexJsonLdC4, htmlElems := emptyRecord,
    metaTags := emptyRecord, hasProductId := true, dynApiPrice := some 999,
    titleText := none, textScanPrice := none }

/-- Claim C4 counterexample: the currency EUR, present with a truthy
value from the highest-priority JSON-LD strategy, is overwritten with
INR by the lower-priority auxiliary-endpoint strategy when it backfills
the missing price — the first successful extractor does not determine
the final value of the currency field. -/
theorem C4_currency_overwrite_cex :
    mergeJsonLd emptyRecord cexDocC4.jsonLd Fld.currency =
      some (FieldVal.str "EUR") ∧
    (FieldVal.str "EUR").truthy = true ∧
    aggregateDoc emptyRecord cexDocC4 Fld.currency =
      some (FieldVal.str "INR") :=
  ⟨by decide, by decide, by decide⟩

/-- Record holding only a truthy product name, for the C4 witness. -/
def wRecC4 : Record := Record.set emptyRecord Fld.name (.str "Widget")

/-- Witness for the amended claim C4: a truthy name survives the whole
lower-priority pipeline of the counterexample document. -/
theorem C4_merge_no_overwrite_witness :
    (FieldVal.str "Widget").truthy = true ∧ Fld.name ≠ Fld.currency ∧
    stagesAfter1 cexDocC4 wRecC4 Fld.name = some (FieldVal.str "Widget") :=
  ⟨by decide, by decide,
   (C4_merge_no_overwrite cexDocC4 Fld.name (FieldVal.str "Widget")
      (by decide) (by decide)).1 wRecC4 (by decide)⟩

/- ------------------------------------------------------------------ -/
/- Price provenance: every price in a returned dictionary was          -/
/- extracted from an input signal, never invented                      -/
/- ------------------------------------------------------------------ -/

def numValsOf : Option FieldVal → List ℚ
  | some (.num q) => [q]
  | some (.str _) => []
  | none => []

/-- All numeric price readings present in one parsed document. -/
def docPriceSignals (d : DocExtracts) : List ℚ :=
  numValsOf (d.jsonLd Fld.price) ++ numValsOf (d.htmlElems Fld.price) ++
    numValsOf (d.metaTags Fld.price) ++ d.dynApiPrice.toList ++
    (d.textScanPrice.map Prod.fst).toList

def attemptsPriceSignals (atts : List AmazonAttempt) : List ℚ :=
  atts.flatMap (fun att => docPriceSignals att.doc)

/-- All price readings available to one `scrape_amazon_product` call. -/
def amazonPriceSignals (inp : AmazonInput) : List ℚ :=
  attemptsPriceSignals inp.attempts ++
    (match inp.fallbackResult with
     | some np => np.2.toList
     | none => [])

/-- All price readings available to one `scrape_product` call. -/
def scrapePriceSignals (inp : ScrapeInput) : List ℚ :=
  inp.amazonCalls.flatMap amazonPriceSignals

/-- The ways a price entry of a merged record can relate to one parsed
document: taken verbatim from one of the three record-producing
strategies, or set from the dynamic price API, or from the free-text
scan. -/
def docPriceEntry (d : DocExtracts) (o : Option FieldVal) : Prop :=
  o = d.jsonLd Fld.price ∨ o = d.htmlElems Fld.price ∨
    o = d.metaTags Fld.price ∨
    (∃ p, d.dynApiPrice = some p ∧ o = some (.num p)) ∨
    (∃ pc, d.textScanPrice = some pc ∧ o = some (.num pc.1))

lemma numOf_eq_some {o : Option FieldVal} {q : ℚ} :
    numOf o = some q ↔ o = some (.num q) := by
  cases o with
  | none => simp [numOf]
  | some v => cases v <;> simp [numOf]

lemma mem_docPriceSignals_of_entry {d : DocExtracts} {o : Option FieldVal}
    {q : ℚ} (hd : docPriceEntry d o) (h : numOf o = some q) :
    q ∈ docPriceSignals d := by
  rw [numOf_eq_some] at h
  subst h
  rw [docPriceSignals]
  simp only [List.mem_append]
  rcases hd with h1 | h1 | h1 | ⟨p, hp, h1⟩ | ⟨pc, hp, h1⟩
  · left; left; left; left; rw [← h1]; simp [numValsOf]
  · left; left; left; right; rw [← h1]; simp [numValsOf]
  · left; left; right; rw [← h1]; simp [numValsOf]
  · left; right
    obtain rfl : q = p := by simpa using h1
    simp [hp]
  · right
    obtain rfl : q = pc.1 := by simpa using h1
    simp [hp]

lemma Record.set_same (a : Record) (f : Fld) (v : FieldVal) :
    (a.set f v) f = some v := by
  simp [Record.set]

lemma mergeKeep_entry (acc new : Record) (f : Fld) :
    mergeKeep acc new f = acc f ∨ mergeKeep acc new f = new f := by
  unfold mergeKeep
  cases new f with
  | none => left; rfl
  | some w =>
    cases acc f with
    | none => right; rfl
    | some v =>
      dsimp only
      split_ifs with ht
      · left; rfl
      · right; rfl

lemma mergeOverwrite_entry (acc new : Record) (f : Fld) :
    mergeOverwrite acc new f = acc f ∨ mergeOverwrite acc new f = new f := by
  cases hn : new f <;> simp [mergeOverwrite, hn]

lemma mergeJsonLd_entry (acc new : Record) (f : Fld) :
    mergeJsonLd acc new f = acc f ∨ mergeJsonLd acc new f = new f := by
  unfold mergeJsonLd
  split_ifs with h
  · exact mergeOverwrite_entry acc new f
  · left; rfl

lemma dynApiStage_price (d : DocExtracts) (a : Record) :
    dynApiStage d a Fld.price = a Fld.price ∨
      (∃ p, d.dynApiPrice = some p ∧
        dynApiStage d a Fld.price = some (.num p)) := by
  unfold dynApiStage
  split_ifs with hc
  · cases hdp : d.dynApiPrice with
    | none => left; rfl
    | some p =>
      simp only []
      split_ifs with hp0
      · right
        refine ⟨p, rfl, ?_⟩
        rw [Record.set_ne _ _ _ _ (by simp), Record.set_same]
      · left; rfl
  · left; rfl

lemma titleNameStep_price (t : String) (a : Record) :
    titleNameStep t a Fld.price = a Fld.price := by
  unfold titleNameStep
  split_ifs
  · rfl
  · exact Record.set_ne _ _ _ _ (by simp)

lemma titleDescStep_price (t : String) (a : Record) :
    titleDescStep t a Fld.price = a Fld.price := by
  unfold titleDescStep
  split_ifs
  · rfl
  · exact Record.set_ne _ _ _ _ (by simp)

lemma titlePriceStep_price (d : DocExtracts) (a : Record) :
    titlePriceStep d a Fld.price = a Fld.price ∨
      (∃ pc, d.textScanPrice = some pc ∧
        titlePriceStep d a Fld.price = some (.num pc.1)) := by
  unfold titlePriceStep
  cases hp : a Fld.price with
  | some w => left; exact hp
  | none =>
    cases hts : d.textScanPrice with
    | none => left; exact hp
    | some pc =>
      right
      refine ⟨pc, rfl, ?_⟩
      dsimp only
      rw [Record.set_ne _ _ _ _ (by simp), Record.set_same]

lemma titleStage_price (d : DocExtracts) (a : Record) :
    titleStage d a Fld.price = a Fld.price ∨
      (∃ pc, d.textScanPrice = some pc ∧
        titleStage d a Fld.price = some (.num pc.1)) := by
  unfold titleStage
  cases ht : d.titleText with
  | none => left; rfl
  | some t =>
    simp only []
    split_ifs with hlen
    · rcases titlePriceStep_price d (titleDescStep t (titleNameStep t a)) with
        h | ⟨pc, hpc, h⟩
      · left
        rw [h, titleDescStep_price, titleNameStep_price]
      · right; exact ⟨pc, hpc, h⟩
    · left; rfl

lemma stagesAfter3_price (d : DocExtracts) (a : Record) :
    stagesAfter3 d a Fld.price = a Fld.price ∨
      docPriceEntry d (stagesAfter3 d a Fld.price) := by
  rw [stagesAfter3]
  rcases titleStage_price d (dynApiStage d a) with h | ⟨pc, hpc, h⟩
  · rcases dynApiStage_price d a with h2 | ⟨p, hp, h2⟩
    · left; rw [h, h2]
    · right
      rw [docPriceEntry]
      exact Or.inr (Or.inr (Or.inr (Or.inl ⟨p, hp, by rw [h, h2]⟩)))
  · right
    rw [docPriceEntry]
    exact Or.inr (Or.inr (Or.inr (Or.inr ⟨pc, hpc, h⟩)))

lemma stagesAfter2_price (d : DocExtracts) (a : Record) :
    stagesAfter2 d a Fld.price = a Fld.price ∨
      docPriceEntry d (stagesAfter2 d a Fld.price) := by
  rw [stagesAfter2]
  split_ifs with hc
  · left; rfl
  · rcases stagesAfter3_price d (mergeKeep a d.metaTags) with h | h
    · rcases mergeKeep_entry a d.metaTags Fld.price with h2 | h2
      · left; rw [h, h2]
      · right
        rw [docPriceEntry]
        exact Or.inr (Or.inr (Or.inl (by rw [h, h2])))
    · right; exact h

lemma stagesAfter1_price (d : DocExtracts) (a : Record) :
    stagesAfter1 d a Fld.price = a Fld.price ∨
      docPriceEntry d (stagesAfter1 d a Fld.price) := by
  rw [stagesAfter1]
  split_ifs with hc
  · left; rfl
  · rcases stagesAfter2_price d (mergeKeep a d.htmlElems) with h | h
    · rcases mergeKeep_entry a d.htmlElems Fld.price with h2 | h2
      · left; rw [h, h2]
      · right
        rw [docPriceEntry]
        exact Or.inr (Or.inl (by rw [h, h2]))
    · right; exact h

lemma imageFillStep_price (og : Option String) (a : Record) :
    imageFillStep og a Fld.price = a Fld.price := by
  unfold imageFillStep
  split_ifs
  · rfl
  · cases og with
    | some u => exact Record.set_ne _ _ _ _ (by simp)
    | none => rfl

lemma finalizeRecord_price (og : Option String) (a : Record) :
    finalizeRecord og a Fld.price = a Fld.price := by
  unfold finalizeRecord
  split_ifs with hp
  · exact imageFillStep_price og a
  · rw [Record.set_ne _ _ _ _ (by simp)]
    exact imageFillStep_price og a

lemma a2_price_entry (running : Record) (d : DocExtracts) :
    mergeKeep (mergeJsonLd running d.jsonLd) d.htmlElems Fld.price =
      running Fld.price ∨
    docPriceEntry d
      (mergeKeep (mergeJsonLd running d.jsonLd) d.htmlElems Fld.price) := by
  rcases mergeKeep_entry (mergeJsonLd running d.jsonLd) d.htmlElems Fld.price
    with h | h
  · rcases mergeJsonLd_entry running d.jsonLd Fld.price with h2 | h2
    · left; rw [h, h2]
    · right; rw [docPriceEntry]; left; rw [h, h2]
  · right; rw [docPriceEntry]; right; left; exact h

lemma a3_price_entry (running : Record) (d : DocExtracts) :
    mergeKeep (mergeKeep (mergeJsonLd running d.jsonLd) d.htmlElems)
      d.metaTags Fld.price = running Fld.price ∨
    docPriceEntry d
      (mergeKeep (mergeKeep (mergeJsonLd running d.jsonLd) d.htmlElems)
        d.metaTags Fld.price) := by
  rcases mergeKeep_entry (mergeKeep (mergeJsonLd running d.jsonLd) d.htmlElems)
      d.metaTags Fld.price with h | h
  · rcases a2_price_entry running d with h2 | h2
    · left; rw [h, h2]
    · right; rw [h]; exact h2
  · right; rw [docPriceEntry]; right; right; left; exact h

lemma stage3_price_entry (running : Record) (d : DocExtracts) :
    stagesAfter3 d
      (mergeKeep (mergeKeep (mergeJsonLd running d.jsonLd) d.htmlElems)
        d.metaTags) Fld.price = running Fld.price ∨
    docPriceEntry d
      (stagesAfter3 d
        (mergeKeep (mergeKeep (mergeJsonLd running d.jsonLd) d.htmlElems)
          d.metaTags) Fld.price) := by
  rcases stagesAfter3_price d
      (mergeKeep (mergeKeep (mergeJsonLd running d.jsonLd) d.htmlElems)
        d.metaTags) with h | h
  · rcases a3_price_entry running d with h2 | h2
    · left; rw [h, h2]
    · right; rw [h]; exact h2
  · right; exact h

lemma runAttempt_inl_price {att : AmazonAttempt} {running : Record}
    {dict : ProductDict} (h : runAttempt att running = Sum.inl dict) :
    dict.price = none ∨ dict.price = numOf (running Fld.price) ∨
    ∃ p ∈ docPriceSignals att.doc, dict.price = some p := by
  have entry_to_goal : ∀ o : Option FieldVal,
      (o = running Fld.price ∨ docPriceEntry att.doc o) →
      numOf o = none ∨ numOf o = numOf (running Fld.price) ∨
      ∃ p ∈ docPriceSignals att.doc, numOf o = some p := by
    intro o ho
    rcases ho with ho | ho
    · right; left; rw [ho]
    · cases hq : numOf o with
      | none => left; rfl
      | some q =>
        right; right
        exact ⟨q, mem_docPriceSignals_of_entry ho hq, rfl⟩
  unfold runAttempt at h
  split_ifs at h with hb h1 h2 h3
  · obtain rfl : recordDict (mergeJsonLd running att.doc.jsonLd) = dict := by
      simpa using h
    have hmm := entry_to_goal (mergeJsonLd running att.doc.jsonLd Fld.price)
      (by rcases mergeJsonLd_entry running att.doc.jsonLd Fld.price with h4 | h4
          · left; exact h4
          · right; rw [docPriceEntry]; left; exact h4)
    simpa [recordDict] using hmm
  · obtain rfl : recordDict
        (mergeKeep (mergeJsonLd running att.doc.jsonLd) att.doc.htmlElems) =
        dict := by simpa using h
    have hmm := entry_to_goal _ (a2_price_entry running att.doc)
    simpa [recordDict] using hmm
  · obtain rfl : recordDict (finalizeRecord att.ogImage
        (stagesAfter3 att.doc
          (mergeKeep
            (mergeKeep (mergeJsonLd running att.doc.jsonLd)
              att.doc.htmlElems)
            att.doc.metaTags))) = dict := by simpa using h
    have hmm := entry_to_goal _ (stage3_price_entry running att.doc)
    simpa [recordDict, finalizeRecord_price] using hmm

lemma runAttempt_inr_price {att : AmazonAttempt} {running a : Record}
    (h : runAttempt att running = Sum.inr a) :
    a Fld.price = running Fld.price ∨ docPriceEntry att.doc (a Fld.price) := by
  unfold runAttempt at h
  split_ifs at h with hb h1 h2 h3
  · obtain rfl : running = a := by simpa using h
    left; rfl
  · obtain rfl : stagesAfter3 att.doc
        (mergeKeep
          (mergeKeep (mergeJsonLd running att.doc.jsonLd) att.doc.htmlElems)
          att.doc.metaTags) = a := by simpa using h
    exact stage3_price_entry running att.doc

lemma runAttempt_inl_flags {att : AmazonAttempt} {running : Record}
    {dict : ProductDict} (h : runAttempt att running = Sum.inl dict) :
    dict.is_mock_data = false ∧ dict.scraping_failed = false := by
  unfold runAttempt at h
  split_ifs at h with hb h1 h2 h3
  · obtain rfl : recordDict (mergeJsonLd running att.doc.jsonLd) = dict := by
      simpa using h
    exact ⟨rfl, rfl⟩
  · obtain rfl : recordDict
        (mergeKeep (mergeJsonLd running att.doc.jsonLd) att.doc.htmlElems) =
        dict := by simpa using h
    exact ⟨rfl, rfl⟩
  · obtain rfl : recordDict (finalizeRecord att.ogImage
        (stagesAfter3 att.doc
          (mergeKeep
            (mergeKeep (mergeJsonLd running att.doc.jsonLd)
              att.doc.htmlElems)
            att.doc.metaTags))) = dict := by simpa using h
    exact ⟨rfl, rfl⟩

lemma attemptsPriceSignals_cons (att : AmazonAttempt)
    (rest : List AmazonAttempt) :
    attemptsPriceSignals (att :: rest) =
      docPriceSignals att.doc ++ attemptsPriceSignals rest := by
  simp [attemptsPriceSignals]

lemma amazonLoop_flags (fb : Option (String × Option ℚ))
    (atts : List AmazonAttempt) : ∀ running : Record,
    (amazonLoop fb running atts).is_mock_data = false ∧
    ((amazonLoop fb running atts).scraping_failed = true →
      (amazonLoop fb running atts).error.isSome = true) := by
  induction atts with
  | nil =>
    intro running
    simp only [amazonLoop]
    split_ifs with hn
    · exact ⟨rfl, by simp [partialDict, recordDict]⟩
    · cases fb with
      | none => exact ⟨rfl, by simp [amazonFailDict]⟩
      | some np => exact ⟨rfl, by simp [fallbackDict]⟩
  | cons att rest ih =>
    intro running
    simp only [amazonLoop]
    cases hra : runAttempt att running with
    | inl dict =>
      obtain ⟨hm, hf⟩ := runAttempt_inl_flags hra
      exact ⟨hm, by rw [hf]; simp⟩
    | inr a => exact ih a

lemma amazonLoop_price (fb : Option (String × Option ℚ))
    (atts : List AmazonAttempt) : ∀ running : Record,
    (amazonLoop fb running atts).price = none ∨
    (amazonLoop fb running atts).price = numOf (running Fld.price) ∨
    (∃ p ∈ attemptsPriceSignals atts,
      (amazonLoop fb running atts).price = some p) ∨
    (∃ n p, fb = some (n, some p) ∧
      (amazonLoop fb running atts).price = some p) := by
  induction atts with
  | nil =>
    intro running
    simp only [amazonLoop]
    split_ifs with hn
    · right; left; rfl
    · cases fb with
      | none => left; rfl
      | some np =>
        cases hp : np.2 with
        | none => left; simp [fallbackDict, hp]
        | some p =>
          right; right; right
          refine ⟨np.1, p, ?_, by simp [fallbackDict, hp]⟩
          rw [← hp]
  | cons att rest ih =>
    intro running
    simp only [amazonLoop]
    cases hra : runAttempt att running with
    | inl dict =>
      rcases runAttempt_inl_price hra with h | h | ⟨p, hp, h⟩
      · left; exact h
      · right; left; exact h
      · right; right; left
        refine ⟨p, ?_, h⟩
        rw [attemptsPriceSignals_cons]
        exact List.mem_append.mpr (Or.inl hp)
    | inr a =>
      rcases ih a with h | h | ⟨p, hp, h⟩ | ⟨n, p, hfb, h⟩
      · left; exact h
      · rcases runAttempt_inr_price hra with h2 | h2
        · right; left; rw [h, h2]
        · cases hq : numOf (a Fld.price) with
          | none => left; rw [h, hq]
          | some q =>
            right; right; left
            refine ⟨q, ?_, by rw [h, hq]⟩
            rw [attemptsPriceSignals_cons]
            exact List.mem_append.mpr
              (Or.inl (mem_docPriceSignals_of_entry h2 hq))
      · right; right; left
        refine ⟨p, ?_, h⟩
        rw [attemptsPriceSignals_cons]
        exact List.mem_append.mpr (Or.inr hp)
      · right; right; right
        exact ⟨n, p, hfb, h⟩

lemma mem_attemptsPriceSignals_take {atts : List AmazonAttempt} {p : ℚ}
    (n : ℕ) (h : p ∈ attemptsPriceSignals (atts.take n)) :
    p ∈ attemptsPriceSignals atts := by
  rw [attemptsPriceSignals, List.mem_flatMap] at h ⊢
  obtain ⟨att, hatt, hp⟩ := h
  exact ⟨att, List.take_subset n atts hatt, hp⟩

/-- Every dictionary produced by `scrape_amazon_product` carries real
data: it is never flagged as mock, a failure carries an error message,
and a returned price is one of the numeric readings extracted from the
fetched documents or the fallback pages. -/
lemma scrape_amazon_props (inp : AmazonInput) :
    (scrape_amazon_product inp).is_mock_data = false ∧
    ((scrape_amazon_product inp).scraping_failed = true →
      (scrape_amazon_product inp).error.isSome = true) ∧
    ((scrape_amazon_product inp).price = none ∨
      ∃ p ∈ amazonPriceSignals inp,
        (scrape_amazon_product inp).price = some p) := by
  obtain ⟨hm, hf⟩ :=
    amazonLoop_flags inp.fallbackResult (inp.attempts.take 5) emptyRecord
  refine ⟨hm, hf, ?_⟩
  unfold scrape_amazon_product
  rcases amazonLoop_price inp.fallbackResult (inp.attempts.take 5) emptyRecord
    with h | h | ⟨p, hp, h⟩ | ⟨n, p, hfb, h⟩
  · left; exact h
  · left; rw [h]; rfl
  · right
    refine ⟨p, ?_, h⟩
    rw [amazonPriceSignals]
    exact List.mem_append.mpr (Or.inl (mem_attemptsPriceSignals_take 5 hp))
  · right
    refine ⟨p, ?_, h⟩
    rw [amazonPriceSignals]
    refine List.mem_append.mpr (Or.inr ?_)
    rw [hfb]
    simp

lemma scrape_productLoop_props (e : Env) (m : MockData)
    (hgate : (is_development_mode e && should_use_mock_data e) = false) :
    ∀ calls : List AmazonInput,
    (scrape_productLoop e m calls).is_mock_data = false ∧
    ((scrape_productLoop e m calls).scraping_failed = true →
      (scrape_productLoop e m calls).error.isSome = true) ∧
    ((scrape_productLoop e m calls).scraping_failed = false →
      (scrape_productLoop e m calls).price = none ∨
      ∃ c ∈ calls, ∃ p ∈ amazonPriceSignals c,
        (scrape_productLoop e m calls).price = some p) := by
  intro calls
  induction calls with
  | nil =>
    simp only [scrape_productLoop, hgate]
    exact ⟨rfl, by simp, by simp⟩
  | cons c rest ih =>
    simp only [scrape_productLoop]
    split_ifs with hc
    · obtain ⟨hm, -, hp⟩ := scrape_amazon_props c
      rw [Bool.and_eq_true] at hc
      have hnf : (scrape_amazon_product c).scraping_failed = false := by
        simpa using hc.2
      refine ⟨hm, ?_, ?_⟩
      · intro hx
        exact absurd hx (by simp [hnf])
      · intro _
        rcases hp with hp | ⟨p, hps, hp⟩
        · left; exact hp
        · right; exact ⟨c, List.mem_cons_self _ _, p, hps, hp⟩
    · obtain ⟨hm, hf, hp⟩ := ih
      refine ⟨hm, hf, ?_⟩
      intro hnf
      rcases hp hnf with hp2 | ⟨c2, hc2, p, hps, hp2⟩
      · left; exact hp2
      · right; exact ⟨c2, List.mem_cons_of_mem _ hc2, p, hps, hp2⟩

/-- Claim C1 (amended): whenever mock data is not enabled — in
particular in all production operation — `scrape_product` never returns
mock data (no result is flagged `is_mock_data`), a failed extraction is
returned with `scraping_failed` and an error description, and the price
of a successful result is never invented: it is either the explicit
absence `none` or one of the numeric price readings extracted from the
inputs.  The exception forcing the amendment is the generated
description placeholder of the fallback paths (see the
counterexample). -/
theorem C1_no_fabrication (e : Env) (m : MockData) (inp : ScrapeInput)
    (hprod : should_use_mock_data e = false) :
    (scrape_product e m inp).is_mock_data = false ∧
    ((scrape_product e m inp).scraping_failed = true →
      (scrape_product e m inp).error.isSome = true) ∧
    ((scrape_product e m inp).scraping_failed = false →
      (scrape_product e m inp).price = none ∨
      ∃ p ∈ scrapePriceSignals inp,
        (scrape_product e m inp).price = some p) := by
  have hgate : (is_development_mode e && should_use_mock_data e) = false := by
    rw [hprod, Bool.and_false]
  unfold scrape_product
  cases hexn : inp.exn with
  | some msg =>
    dsimp only
    rw [hgate]
    simp
  | none =>
    dsimp only
    split_ifs with ha hg
    · obtain ⟨hm, hf, hp⟩ := scrape_productLoop_props e m hgate
        (inp.amazonCalls.take 3)
      refine ⟨hm, hf, ?_⟩
      intro hnf
      rcases hp hnf with hp2 | ⟨c, hc, p, hps, hp2⟩
      · left; exact hp2
      · right
        refine ⟨p, ?_, hp2⟩
        rw [scrapePriceSignals, List.mem_flatMap]
        exact ⟨c, List.take_subset 3 inp.amazonCalls hc, hps⟩
    · rw [hgate] at hg
      exact absurd hg (by simp)
    · exact ⟨rfl, by simp, by simp⟩

/-- A production environment: not development, mocks not enabled. -/
def prodEnv : Env :=
  { appAvailable := true, flaskEnvDev := false, osEnvDev := false,
    testing := false, allowMocks := false }

/-- An arbitrary mock generator output, irrelevant in production. -/
def anyMock : MockData :=
  { name := "Mock Product", price := 123, description := "mock text" }

/-- Input for the C1 counterexample: an Amazon URL whose direct
attempts all fail, with the mobile-site fallback recovering a name but
no description and no price. -/
def cexC1Input : ScrapeInput :=
  { isAmazonDomain := true, domain := "www.amazon.in", exn := none,
    amazonCalls := [{ attempts := [],
                      fallbackResult := some ("Nice Widget Pro", none) }] }

/-- Claim C1 counterexample: in production, when the mobile-site
fallback recovers only a product name, `scrape_product` returns a
successful result whose description field is the generated placeholder
string `Product details for {name}`, although no description was ever
extracted — so an unextracted field is not always an explicit
absence. -/
theorem C1_description_placeholder_cex :
    should_use_mock_data prodEnv = false ∧
    (scrape_product prodEnv anyMock cexC1Input).scraping_failed = false ∧
    (scrape_product prodEnv anyMock cexC1Input).is_mock_data = false ∧
    (scrape_product prodEnv anyMock cexC1Input).description =
      some "Product details for Nice Widget Pro" :=
  ⟨by decide, by decide, by decide, by decide⟩

/-- Witness for the amended claim C1 at the concrete production
environment and fallback input. -/
theorem C1_no_fabrication_witness :
    should_use_mock_data prodEnv = false ∧
    (scrape_product prodEnv anyMock cexC1Input).is_mock_data = false :=
  ⟨by decide, (C1_no_fabrication prodEnv anyMock cexC1Input (by decide)).1⟩

/-- A PriceAlert row. -/
structure AlertRec where
  id : ℕ
  targetPrice : ℚ
  triggered : Bool
  triggeredAt : Option ℕ
  triggeredPrice : Option ℚ
deriving DecidableEq, Repr

/-- `get_untriggered_alerts` (database.py): alerts of the product with
`target_price >= current_price` and `triggered == False`. The same
filter is used by the query of `check_price_alerts` (scheduler.py). -/
def get_untriggered_alerts (alerts : List AlertRec) (currentPrice : ℚ) :
    List AlertRec :=
  alerts.filter (fun a => decide (currentPrice ≤ a.targetPrice) && !a.triggered)

/-- `mark_alert_triggered` (database.py): sets the triggered flag of
the row with the given primary key. -/
def mark_alert_triggered (alerts : List AlertRec) (alertId : ℕ) :
    List AlertRec :=
  alerts.map (fun a => if a.id = alertId then { a with triggered := true } else a)

/-- Marking a set of alert ids one by one. -/
def markMany (alerts : List AlertRec) (ids : List ℕ) : List AlertRec :=
  ids.foldl mark_alert_triggered alerts

/-- `check_and_trigger_alerts` (alerts.py): select the untriggered
alerts whose target is met; return early when none match or the product
row is missing; otherwise send the notification for each selected alert
and mark as triggered exactly those whose send was confirmed.  Returns
the updated alert rows and the ids for which the notifier was
invoked. -/
def check_and_trigger_alerts (emailOk : ℕ → Bool) (alerts : List AlertRec)
    (currentPrice : ℚ) (productFound : Bool) : List AlertRec × List ℕ :=
  if (get_untriggered_alerts alerts currentPrice).isEmpty then (alerts, [])
  else if !productFound then (alerts, [])
  else
    (markMany alerts
      (((get_untriggered_alerts alerts currentPrice).filter
          (fun a => emailOk a.id)).map (fun a => a.id)),
     (get_untriggered_alerts alerts currentPrice).map (fun a => a.id))

/-- Per-alert effect of `check_price_alerts` (scheduler.py): every
selected alert is marked triggered with timestamp and price. -/
def schedTrigger (currentPrice : ℚ) (now : ℕ) (a : AlertRec) : AlertRec :=
  if !a.triggered && decide (currentPrice ≤ a.targetPrice) then
    { a with
      triggered := true
      triggeredAt := some now
      triggeredPrice := some currentPrice }
  else a

/-- `check_price_alerts` (scheduler.py): the notifier outcome parameter
is unused because the code ignores the return value of
`send_price_alert_email` (the async coroutine is not even awaited) and
marks every selected alert as triggered.  Returns the updated alert
rows and the ids for which a send was attempted. -/
def check_price_alerts (_sendOk : ℕ → Bool) (alerts : List AlertRec)
    (currentPrice : ℚ) (now : ℕ) : List AlertRec × List ℕ :=
  (alerts.map (schedTrigger currentPrice now),
   (get_untriggered_alerts alerts currentPrice).map (fun a => a.id))

/-- Claim C5 (code bug evaluation): for one untriggered alert with
target 950 and new price 900, a notifier that reports failure for every
alert still leaves the scheduler evaluator marking the alert triggered
(with timestamp and price recorded), while the async evaluator of
alerts.py correctly leaves the alert untriggered on the same failing
notifier. -/
theorem C5_triggered_despite_notifier_failure :
    check_price_alerts (fun _ => false)
      [{ id := 1, targetPrice := 950, triggered := false,
         triggeredAt := none, triggeredPrice := none }] 900 5 =
      ([{ id := 1, targetPrice := 950, triggered := true,
          triggeredAt := some 5, triggeredPrice := some 900 }], [1]) ∧
    check_and_trigger_alerts (fun _ => false)
      [{ id := 1, targetPrice := 950, triggered := false,
         triggeredAt := none, triggeredPrice := none }] 900 true =
      ([{ id := 1, targetPrice := 950, triggered := false,
          triggeredAt := none, triggeredPrice := none }], [1]) :=
  ⟨by decide, by decide⟩

/-- Pointwise form of marking a set of ids. -/
def asyncMark (ids : List ℕ) (a : AlertRec) : AlertRec :=
  if a.id ∈ ids then { a with triggered := true } else a

lemma asyncMark_nil (a : AlertRec) : asyncMark [] a = a := by
  simp [asyncMark]

lemma map_asyncMark_nil (alerts : List AlertRec) :
    alerts.map (asyncMark []) = alerts := by
  have hfun : asyncMark [] = fun a => a := by
    funext a
    exact asyncMark_nil a
  rw [hfun]
  simp

lemma markMany_eq_map :
    ∀ (ids : List ℕ) (alerts : List AlertRec),
      markMany alerts ids = alerts.map (asyncMark ids) := by
  intro ids
  induction ids with
  | nil =>
    intro alerts
    rw [map_asyncMark_nil]
    rfl
  | cons i ids ih =>
    intro alerts
    have h1 : markMany alerts (i :: ids) =
        markMany (mark_alert_triggered alerts i) ids := rfl
    rw [h1, ih, mark_alert_triggered, List.map_map]
    apply List.map_congr_left
    intro a _
    simp only [Function.comp]
    by_cases hai : a.id = i
    · rw [if_pos hai]
      by_cases hmem : a.id ∈ ids
      · simp [asyncMark, hmem, hai]
      · simp [asyncMark, hmem, hai]
    · rw [if_neg hai]
      by_cases hmem : a.id ∈ ids
      · simp [asyncMark, hmem, hai]
      · simp [asyncMark, hmem, hai]

lemma asyncMark_triggered_fix (ids : List ℕ) (a : AlertRec)
    (h : a.triggered = true) : asyncMark ids a = a := by
  unfold asyncMark
  split_ifs with hmem
  · cases a
    simp only at h
    rw [h]
  · rfl

lemma schedTrigger_triggered_fix (price : ℚ) (now : ℕ) (a : AlertRec)
    (h : a.triggered = true) : schedTrigger price now a = a := by
  simp [schedTrigger, h]

lemma mem_get_untriggered {alerts : List AlertRec} {price : ℚ}
    {a : AlertRec} (h : a ∈ get_untriggered_alerts alerts price) :
    a ∈ alerts ∧ a.triggered = false ∧ price ≤ a.targetPrice := by
  obtain ⟨hmem, hp⟩ := List.mem_filter.mp h
  rw [Bool.and_eq_true, decide_eq_true_eq] at hp
  exact ⟨hmem, by simpa using hp.2, hp.1⟩

/-- Claim C6: the triggered flag is monotonic.  Selection is sound
(only untriggered alerts whose target is met are selected, in both
evaluators); an already-triggered alert is never among the ids for
which a notification is attempted (given the primary keys are
distinct); both evaluators act pointwise on the alert list and fix
every already-triggered alert, so the flag is never reset and a
triggered alert is never re-flipped. -/
theorem C6_triggered_monotone (emailOk sendOk : ℕ → Bool)
    (alerts : List AlertRec) (price : ℚ) (productFound : Bool) (now : ℕ)
    (hids : (alerts.map (fun a => a.id)).Nodup) :
    (∀ a ∈ get_untriggered_alerts alerts price,
      a.triggered = false ∧ price ≤ a.targetPrice) ∧
    (∀ a ∈ alerts, a.triggered = true →
      a.id ∉ (check_and_trigger_alerts emailOk alerts price productFound).2 ∧
      a.id ∉ (check_price_alerts sendOk alerts price now).2) ∧
    (∃ ids, (check_and_trigger_alerts emailOk alerts price productFound).1 =
      alerts.map (asyncMark ids)) ∧
    (∀ ids a, a.triggered = true → asyncMark ids a = a) ∧
    ((check_price_alerts sendOk alerts price now).1 =
      alerts.map (schedTrigger price now)) ∧
    (∀ a : AlertRec, a.triggered = true → schedTrigger price now a = a) := by
  have hnotif : ∀ a ∈ alerts, a.triggered = true →
      a.id ∉ (get_untriggered_alerts alerts price).map (fun b => b.id) := by
    intro a ha htrig hmem
    rw [List.mem_map] at hmem
    obtain ⟨b, hb, hid⟩ := hmem
    obtain ⟨hbmem, hbuntrig, -⟩ := mem_get_untriggered hb
    have hba : b = a := List.inj_on_of_nodup_map hids hbmem ha hid
    rw [hba] at hbuntrig
    rw [htrig] at hbuntrig
    exact Bool.true_eq_false.mp hbuntrig
  refine ⟨?_, ?_, ?_, ?_, rfl, fun a h => schedTrigger_triggered_fix price now a h⟩
  · intro a ha
    obtain ⟨-, h1, h2⟩ := mem_get_untriggered ha
    exact ⟨h1, h2⟩
  · intro a ha htrig
    constructor
    · unfold check_and_trigger_alerts
      split_ifs with h1 h2
      · simp
      · simp
      · exact hnotif a ha htrig
    · exact hnotif a ha htrig
  · unfold check_and_trigger_alerts
    split_ifs with h1 h2
    · exact ⟨[], (map_asyncMark_nil alerts).symm⟩
    · exact ⟨[], (map_asyncMark_nil alerts).symm⟩
    · exact ⟨_, markMany_eq_map _ alerts⟩
  · exact fun ids a h => asyncMark_triggered_fix ids a h

/-- Alerts with distinct ids for the C6 witness: one already triggered,
one untriggered with its target met. -/
def alertsC6 : List AlertRec :=
  [{ id := 1, targetPrice := 980, triggered := true,
     triggeredAt := some 2, triggeredPrice := some 970 },
   { id := 2, targetPrice := 950, triggered := false,
     triggeredAt := none, triggeredPrice := none }]

/-- Witness for claim C6 at a concrete alert list. -/
theorem C6_triggered_monotone_witness :
    ((alertsC6.map (fun a => a.id)).Nodup) ∧
    (∀ a ∈ get_untriggered_alerts alertsC6 900,
      a.triggered = false ∧ (900 : ℚ) ≤ a.targetPrice) :=
  ⟨by decide,
   (C6_triggered_monotone (fun _ => true) (fun _ => true) alertsC6 900 true 7
      (by decide)).1⟩

/- ------------------------------------------------------------------ -/
/- Claim C7: when the alert evaluator is invoked on a price update     -/
/- ------------------------------------------------------------------ -/

/-- `DEFAULT_UPDATE_INTERVAL = 24` hours. -/
def DEFAULT_UPDATE_INTERVAL : ℚ := 24

/-- `ALERT_PRIORITY_MULTIPLIER = 2.0`. -/
def ALERT_PRIORITY_MULTIPLIER : ℚ := 2

/-- `RECENT_PRICE_CHANGE_MULTIPLIER = 1.5`. -/
def RECENT_PRICE_CHANGE_MULTIPLIER : ℚ := 3/2

/-- Time factor: hours since last update normalised by the expected
interval; never-updated products get the fixed weight 5.0. -/
def time_factor (hoursSinceUpdate : Option ℚ) : ℚ :=
  match hoursSinceUpdate with
  | some h => h / DEFAULT_UPDATE_INTERVAL
  | none => 5

/-- Volatility inputs: fewer than 3 recent observations, a
non-positive mean, or a computed coefficient of variation (the
standard deviation over the mean, which is irrational in general and
is therefore taken as an input here). -/
inductive VolatilityData
  | insufficient
  | zeroMean
  | cv (c : ℚ)
deriving DecidableEq, Repr

/-- Volatility factor: `min(cv * 10, 3.0)`, or 0 for a non-positive
mean, or the fixed medium-low default 0.5 for fewer than 3 points. -/
def volatility_factor : VolatilityData → ℚ
  | .insufficient => 1/2
  | .zeroMean => 0
  | .cv c => min (c * 10) 3

/-- Alert factor: `min(active_alerts * 0.5, 2.0) * 2.0` when there is
at least one active alert, else 0. -/
def alert_factor (activeAlerts : ℕ) : ℚ :=
  if 0 < activeAlerts then
    min ((activeAlerts : ℚ) * (1/2)) 2 * ALERT_PRIORITY_MULTIPLIER
  else 0

/-- Recent-change factor: the fixed bonus 1.5 when at least 2 recent
records exist, their maximum is positive and the spread is at least
5 percent of the maximum. -/
def recent_change_factor (recentPrices : List ℚ) : ℚ :=
  if 2 ≤ recentPrices.length then
    match recentPrices.max?, recentPrices.min? with
    | some mx, some mn =>
      if 0 < mx then
        if 5 ≤ (mx - mn) / mx * 100 then RECENT_PRICE_CHANGE_MULTIPLIER
        else 0
      else 0
    | _, _ => 0
  else 0

/-- `calculate_update_priority`: total score as the sum of the four
factors. -/
def calculate_update_priority (hoursSinceUpdate : Option ℚ)
    (vol : VolatilityData) (activeAlerts : ℕ)
    (recentPrices : List ℚ) : ℚ :=
  time_factor hoursSinceUpdate + volatility_factor vol +
    alert_factor activeAlerts + recent_change_factor recentPrices

/-- Claim C8: with the volatility, alert-pressure and recent-change
inputs held fixed, the total priority score is monotonically
non-decreasing in the staleness hours; and recomputing the score on
unchanged inputs yields the same score — the computation reads none of
the wall clock, randomness or other hidden state. -/
theorem C8_priority_monotone (h1 h2 : ℚ) (vol : VolatilityData)
    (activeAlerts : ℕ) (recentPrices : List ℚ) (hle : h1 ≤ h2) :
    calculate_update_priority (some h1) vol activeAlerts recentPrices ≤
      calculate_update_priority (some h2) vol activeAlerts recentPrices ∧
    ∀ ho : Option ℚ,
      calculate_update_priority ho vol activeAlerts recentPrices =
        calculate_update_priority ho vol activeAlerts recentPrices := by
  refine ⟨?_, fun ho => rfl⟩
  unfold calculate_update_priority time_factor DEFAULT_UPDATE_INTERVAL
  have ht : h1 / 24 ≤ h2 / 24 := by linarith
  linarith

/-- Witness for claim C8: staleness 12 versus 48 hours with fixed
remaining factors. -/
theorem C8_priority_monotone_witness :
    (12 : ℚ) ≤ 48 ∧
    calculate_update_priority (some 12) (.cv (1/10)) 1 [1000, 950] ≤
      calculate_update_priority (some 48) (.cv (1/10)) 1 [1000, 950] :=
  ⟨by decide,
   (C8_priority_monotone 12 48 (.cv (1/10)) 1 [1000, 950] (by decide)).1⟩

/- ------------------------------------------------------------------ -/
/- Claim C9: per-item transactional isolation of the update cycle      -/
/- ------------------------------------------------------------------ -/

/-- `MAX_RETRIES = 3` (scheduler.py). -/
def MAX_RETRIES : ℕ := 3

/-- One attempt of one item update: the price observations the attempt
stages in the session, and whether its commit succeeds.  On failure the
session is rolled back, so none of the staged writes reach the
store. -/
structure ItemAttempt where
  writes : List ℚ
  persistOk : Bool
deriving DecidableEq, Repr

/-- `update_product_with_retries` (scheduler.py lines 190-231) against
a committed store of (item id, price) observations: each attempt either
commits its staged writes and returns success, or rolls back and the
next attempt runs; with no attempt left the item is reported failed
with the store unchanged. -/
def update_product_with_retries (st : List (ℕ × ℚ)) (itemId : ℕ) :
    List ItemAttempt → List (ℕ × ℚ) × Bool
  | [] => (st, false)
  | att :: rest =>
    if att.persistOk then
      (st ++ att.writes.map (fun p => (itemId, p)), true)
    else update_product_with_retries st itemId rest

/-- Writes committed by the first successful attempt, if any. -/
def firstOkWrites (itemId : ℕ) : List ItemAttempt → List (ℕ × ℚ)
  | [] => []
  | att :: rest =>
    if att.persistOk then att.writes.map (fun p => (itemId, p))
    else firstOkWrites itemId rest

/-- Modelled from the spec: the cycle driver that processes each
selected item in turn through `update_product_with_retries`, recording
per item whether it succeeded, and proceeding to the next item either
way (spec section 4.6; the repository contains the per-item retry
function but no loop invoking it, its scheduled job using the retryless
`update_all_prices` variant instead). -/
def runCycle (st : List (ℕ × ℚ)) :
    List (ℕ × List ItemAttempt) → List (ℕ × ℚ) × List (ℕ × Bool)
  | [] => (st, [])
  | (i, atts) :: rest =>
    ((runCycle (update_product_with_retries st i
        (atts.take MAX_RETRIES)).1 rest).1,
     (i, (update_product_with_retries st i (atts.take MAX_RETRIES)).2) ::
       (runCycle (update_product_with_retries st i
          (atts.take MAX_RETRIES)).1 rest).2)

/-- Observations item `j` ends up contributing to the cycle: the writes
of the first successful attempt of each of its own entries. -/
def cycleContribution (j : ℕ) (items : List (ℕ × List ItemAttempt)) :
    List (ℕ × ℚ) :=
  (items.filter (fun it => it.1 == j)).flatMap
    (fun it => firstOkWrites j (it.2.take MAX_RETRIES))

lemma update_eq_append (itemId : ℕ) :
    ∀ (atts : List ItemAttempt) (st : List (ℕ × ℚ)),
      (update_product_with_retries st itemId atts).1 =
        st ++ firstOkWrites itemId atts := by
  intro atts
  induction atts with
  | nil => intro st; simp [update_product_with_retries, firstOkWrites]
  | cons att rest ih =>
    intro st
    simp only [update_product_with_retries, firstOkWrites]
    split_ifs with hok
    · rfl
    · exact ih st

lemma mem_firstOkWrites_fst (itemId : ℕ) :
    ∀ (atts : List ItemAttempt) (w : ℕ × ℚ),
      w ∈ firstOkWrites itemId atts → w.1 = itemId := by
  intro atts
  induction atts with
  | nil => intro w hw; simp [firstOkWrites] at hw
  | cons att rest ih =>
    intro w hw
    rw [firstOkWrites] at hw
    split_ifs at hw with hok
    · obtain ⟨p, -, hp⟩ := List.mem_map.mp hw
      rw [← hp]
    · exact ih w hw

lemma firstOkWrites_filter (i j : ℕ) (atts : List ItemAttempt) :
    (firstOkWrites i atts).filter (fun w => w.1 == j) =
      if i = j then firstOkWrites i atts else [] := by
  split_ifs with hij
  · subst hij
    rw [List.filter_eq_self]
    intro w hw
    rw [mem_firstOkWrites_fst i atts w hw]
    simp
  · rw [List.filter_eq_nil_iff]
    intro w hw
    rw [mem_firstOkWrites_fst i atts w hw]
    simp [hij]

lemma update_all_attempts_fail (itemId : ℕ) :
    ∀ (atts : List ItemAttempt) (st : List (ℕ × ℚ)),
      (∀ att ∈ atts, att.persistOk = false) →
      update_product_with_retries st itemId atts = (st, false) := by
  intro atts
  induction atts with
  | nil => intro st _; rfl
  | cons att rest ih =>
    intro st hall
    simp only [update_product_with_retries,
      hall att (List.mem_cons_self _ _), Bool.false_eq_true, if_false]
    exact ih st (fun a ha => hall a (List.mem_cons_of_mem _ ha))

/-- Claim C9: per-item isolation of the cycle.  For every item id `j`,
the observations committed for `j` by a whole cycle are exactly the
initial ones plus the contribution of the first successful attempt of
each of the entries of `j` itself — a formula independent of the
attempt outcomes of every other item, so another item failing its
persistence cannot add, remove or alter the observations of `j`.  The
cycle reports an outcome for every selected item in order (one item
failing never stops the cycle), and an item whose attempts all fail
within the retry budget leaves the store untouched (its partial writes
are rolled back) and is reported failed. -/
theorem C9_cycle_isolation (st : List (ℕ × ℚ))
    (items : List (ℕ × List ItemAttempt)) (j : ℕ) :
    ((runCycle st items).1.filter (fun w => w.1 == j) =
      st.filter (fun w => w.1 == j) ++ cycleContribution j items) ∧
    ((runCycle st items).2.map Prod.fst = items.map Prod.fst) ∧
    (∀ (i : ℕ) (atts : List ItemAttempt) (st2 : List (ℕ × ℚ)),
      (∀ att ∈ atts.take MAX_RETRIES, att.persistOk = false) →
      update_product_with_retries st2 i (atts.take MAX_RETRIES) =
        (st2, false)) := by
  refine ⟨?_, ?_, fun i atts st2 hall =>
    update_all_attempts_fail i (atts.take MAX_RETRIES) st2 hall⟩
  · induction items generalizing st with
    | nil => simp [runCycle, cycleContribution]
    | cons it rest ih =>
      obtain ⟨i, atts⟩ := it
      show ((runCycle (update_product_with_retries st i
          (atts.take MAX_RETRIES)).1 rest).1.filter (fun w => w.1 == j)) = _
      rw [ih, update_eq_append, List.filter_append, firstOkWrites_filter]
      have hcontrib : cycleContribution j ((i, atts) :: rest) =
          (if i = j then firstOkWrites i (atts.take MAX_RETRIES) else []) ++
            cycleContribution j rest := by
        unfold cycleContribution
        by_cases hij : i = j
        · subst hij
          rw [List.filter_cons_of_pos (by simp)]
          rw [List.flatMap_cons]
          simp
        · rw [List.filter_cons_of_neg (by simp [hij])]
          simp [hij]
      rw [hcontrib, List.append_assoc]
  · induction items generalizing st with
    | nil => rfl
    | cons it rest ih =>
      obtain ⟨i, atts⟩ := it
      simp only [runCycle, List.map_cons]
      exact congrArg (List.cons i) (ih _)

/-- Witness for claim C9: a cycle over two items where the first fails
every attempt and the second succeeds. -/
theorem C9_cycle_isolation_witness :
    (∀ att ∈ ([{ writes := [500], persistOk := false },
               { writes := [501], persistOk := false },
               { writes := [502], persistOk := false }] :
        List ItemAttempt).take MAX_RETRIES, att.persistOk = false) ∧
    (runCycle [(2, 900)]
        [(1, [{ writes := [500], persistOk := false },
              { writes := [501], persistOk := false },
              { writes := [502], persistOk := false }]),
         (2, [{ writes := [850], persistOk := true }])]).1.filter
      (fun w => w.1 == 2) =
      ([(2, 900)] : List (ℕ × ℚ)).filter (fun w => w.1 == 2) ++
        cycleContribution 2
          [(1, [{ writes := [500], persistOk := false },
                { writes := [501], persistOk := false },
                { writes := [502], persistOk := false }]),
           (2, [{ writes := [850], persistOk := true }])] :=
  ⟨by decide,
   (C9_cycle_isolation [(2, 900)]
      [(1, [{ writes := [500], persistOk := false },
            { writes := [501], persistOk := false },
            { writes := [502], persistOk := false }]),
       (2, [{ writes := [850], persistOk := true }])] 2).1⟩
